import Mathlib

/-!
Shallow embedding of the TDMS core (src/core: validator.py, column.py, row.py,
table.py, database.py, operations.py) and proofs about it.

Modelling conventions:
- Python values flowing through the core arrive through the JSON-facing
  interface, so they are modelled by the `Value` inductive below (null,
  booleans, arbitrary-precision integers, finite floats as the exact rationals
  they denote, strings, lists, string-keyed dicts).  Python `bytes` and
  `datetime.date` objects are not JSON-native and do not occur in this domain.
- Python dicts are insertion-ordered maps with unique keys; they are modelled
  as association lists.  Lookups take the first matching key; the tables built
  by the core have duplicate-free keys, which the theorems record as
  wellformedness hypotheses where it matters.
- Exceptions are modelled by `Except String`, the error string mirroring the
  `ValueError` message raised by the source.
- Mutation of a table or database is modelled by returning the updated value.
-/

namespace TDMS

/-- Model of the JSON-native Python values handled by the core.  A `float`
carries the exact rational denoted by a finite binary64 value; non-finite
floats (inf/nan) are outside the JSON-facing domain and are not modelled. -/
inductive Value where
  | none : Value
  | bool (b : Bool) : Value
  | int (n : Int) : Value
  | float (q : ℚ) : Value
  | str (s : String) : Value
  | list (xs : List Value) : Value
  | dict (xs : List (String × Value)) : Value

/-- Single-quote character as a string, used to render the quoted fragments of
Python error messages. -/
def sq : String := String.singleton (Char.ofNat 39)

/-- Insertion of a string into an already sorted list, ascending. -/
def insertSorted (s : String) : List String → List String
  | [] => [s]
  | x :: xs => if s ≤ x then s :: x :: xs else x :: insertSorted s xs

/-- Insertion sort on strings, modelling Python `sorted` on a set of string
keys (both order strings by code points). -/
def sortStrings (l : List String) : List String := l.foldr insertSorted []

/-- Rendering of a list of strings the way Python prints a list of `str`
values, e.g. `['a', 'b']`. -/
def pyReprStrList (l : List String) : String :=
  "[" ++ String.intercalate ", " (l.map (fun s => sq ++ s ++ sq)) ++ "]"

/-- ASCII whitespace recognizer, for modelling the stripping `int(str)` and
`float(str)` perform.  (Python also strips some exotic Unicode whitespace; no
claim depends on those.) -/
def isSpaceChar (c : Char) : Bool :=
  c = ' ' || c = '\t' || c = '\n' || c = '\r'

/-- Removal of leading and trailing whitespace from a character list. -/
def stripChars (cs : List Char) : List Char :=
  ((cs.dropWhile isSpaceChar).reverse.dropWhile isSpaceChar).reverse

/-- Lexicographic comparison of character lists by code point, the order
Python uses when comparing `str` values with `<` / `>`. -/
def lexLt : List Char → List Char → Bool
  | [], [] => false
  | [], _ :: _ => true
  | _ :: _, [] => false
  | a :: as, b :: bs => if a < b then true else if b < a then false else lexLt as bs

/-- Python string comparison `a < b`. -/
def strLt (a b : String) : Bool := lexLt a.toList b.toList

/-- Split of a character list at the first occurrence of `..`, returning the
parts before and after it; `Option.none` when `..` does not occur.  This
models the combination of Python `".." in s` and `s.split("..", 1)`. -/
def splitDots (acc : List Char) : List Char → Option (List Char × List Char)
  | [] => Option.none
  | '.' :: '.' :: rest => some (acc.reverse, rest)
  | c :: rest => splitDots (c :: acc) rest

/-- Numeric value of a list of ASCII digit characters. -/
def digitsVal (cs : List Char) : Nat :=
  cs.foldl (fun a c => 10 * a + (c.toNat - 48)) 0

/-- Parse of a nonempty, all-digit character list. -/
def digitsToNat (cs : List Char) : Option Nat :=
  if cs ≠ [] ∧ cs.all Char.isDigit then some (digitsVal cs) else Option.none

/-- Model of Python `int(s)` on a string: surrounding whitespace is stripped,
an optional sign is followed by a nonempty run of digits.  (Underscore digit
separators and non-ASCII digits, which CPython also accepts, are left out of
the model; no claim depends on them.) -/
def pyParseInt (s : String) : Option Int :=
  match stripChars s.toList with
  | [] => Option.none
  | c :: rest =>
    if c = '-' then (digitsToNat rest).map (fun n => -(n : Int))
    else if c = '+' then (digitsToNat rest).map (fun n => (n : Int))
    else (digitsToNat (c :: rest)).map (fun n => (n : Int))

/-- Numeric value of an optional-digit integer-part/fraction-part pair. -/
def decimalVal (ip fp : List Char) : ℚ :=
  (digitsVal ip : ℚ) + (digitsVal fp : ℚ) / ((10 : ℚ) ^ fp.length)

/-- Parse of an unsigned decimal literal: digits, digits `.` digits, digits
`.`, or `.` digits. -/
def parseUnsignedDecimal (cs : List Char) : Option ℚ :=
  match cs.splitOn '.' with
  | [ip] => (digitsToNat ip).map (fun n => (n : ℚ))
  | [ip, fp] =>
    if (ip ≠ [] ∨ fp ≠ []) ∧ ip.all Char.isDigit ∧ fp.all Char.isDigit then
      some (decimalVal ip fp)
    else Option.none
  | _ => Option.none

/-- Model of Python `float(s)` on a string: stripped, optionally signed
decimal literal.  (Exponent notation and the `inf`/`nan` spellings accepted by
CPython are left out: the latter denote no finite float and no claim depends
on either.) -/
def pyParseFloat (s : String) : Option ℚ :=
  match stripChars s.toList with
  | [] => Option.none
  | c :: rest =>
    if c = '-' then (parseUnsignedDecimal rest).map (fun q => -q)
    else if c = '+' then parseUnsignedDecimal rest
    else parseUnsignedDecimal (c :: rest)

/-- Model of Python `int(f)` on a finite float: truncation toward zero. -/
def pyTrunc (q : ℚ) : Int :=
  if 0 ≤ q.num then ((q.num.toNat / q.den : Nat) : Int)
  else -(((-q.num).toNat / q.den : Nat) : Int)

mutual

/-- Model of Python `str(value)` (the default text representation used by the
`string` branch of the validator).  Container elements print with `repr`; the
decimal rendering CPython uses for floats is abstracted to an exact
numerator/denominator form — every property proved about the `string` type
only uses that this function is total and that `str` inputs pass through
unchanged. -/
def pyStr : Value → String
  | .none => "None"
  | .bool true => "True"
  | .bool false => "False"
  | .int n => toString n
  | .float q => toString q.num ++ "/" ++ toString q.den
  | .str s => s
  | .list xs => "[" ++ pyStrList xs ++ "]"
  | .dict xs => "\x7b" ++ pyStrDict xs ++ "\x7d"

/-- Comma-separated `repr` of list elements. -/
def pyStrList : List Value → String
  | [] => ""
  | [x] => pyRepr x
  | x :: xs => pyRepr x ++ ", " ++ pyStrList xs

/-- Comma-separated `repr` of dict entries. -/
def pyStrDict : List (String × Value) → String
  | [] => ""
  | [(k, v)] => sq ++ k ++ sq ++ ": " ++ pyRepr v
  | (k, v) :: xs => sq ++ k ++ sq ++ ": " ++ pyRepr v ++ ", " ++ pyStrDict xs

/-- Model of Python `repr(value)` as used for container elements: like `str`
but quoting strings. -/
def pyRepr : Value → String
  | .str s => sq ++ s ++ sq
  | .none => "None"
  | .bool true => "True"
  | .bool false => "False"
  | .int n => toString n
  | .float q => toString q.num ++ "/" ++ toString q.den
  | .list xs => "[" ++ pyStrList xs ++ "]"
  | .dict xs => "\x7b" ++ pyStrDict xs ++ "\x7d"

end

/-- Days of a month in the proleptic Gregorian calendar used by
`datetime.date`. -/
def daysInMonth (y m : Nat) : Nat :=
  if m = 2 then
    if y % 4 = 0 ∧ (y % 100 ≠ 0 ∨ y % 400 = 0) then 29 else 28
  else if m = 4 ∨ m = 6 ∨ m = 9 ∨ m = 11 then 30
  else 31

/-- Validity of a string as a strict `YYYY-MM-DD` ISO-8601 calendar date, the
format `datetime.date.fromisoformat` parses (year 0001–9999, real calendar
day).  For such a string, `fromisoformat(s).isoformat() = s`. -/
def isValidIsoDate (s : String) : Bool :=
  match s.toList with
  | [y1, y2, y3, y4, h1, m1, m2, h2, d1, d2] =>
    ([y1, y2, y3, y4, m1, m2, d1, d2].all Char.isDigit) && h1 = '-' && h2 = '-' &&
    (let y := digitsVal [y1, y2, y3, y4]
     let m := digitsVal [m1, m2]
     let d := digitsVal [d1, d2]
     1 ≤ y && 1 ≤ m && m ≤ 12 && 1 ≤ d && d ≤ daysInMonth y m)
  | _ => false

namespace TypeValidator

/-- Model of `TypeValidator.SUPPORTED_TYPES` (validator.py line 8). -/
def SUPPORTED_TYPES : List String :=
  ["integer", "real", "char", "string", "date", "dateInvl"]

/-- Message raised by `_ensure_supported`. -/
def unsupportedMsg (type_name : String) : String :=
  "Unsupported type: " ++ type_name

/-- Model of `TypeValidator._parse_date` (validator.py lines 15–24) on the
JSON-facing value domain: `datetime.date` instances do not occur there, so
only the string branch is live. -/
def parse_date : Value → Except String String
  | .str s =>
    if isValidIsoDate s then .ok s
    else .error "Invalid date format, expected YYYY-MM-DD"
  | _ => .error "Invalid date value"

/-- Message raised when a `dateInvl` input has none of the three accepted
shapes (validator.py line 73). -/
def intervalShapeMsg : String :=
  "Invalid dateInvl, expected \x7bstart,end\x7d, [start,end] or " ++
    sq ++ "start..end" ++ sq

/-- Extraction of the (start, end) pair from a `dateInvl` input: a dict with
`start` and `end` keys (extra keys tolerated), a two-element list, or a string
containing `..` split at its first occurrence (validator.py lines 65–73). -/
def extractInterval : Value → Option (Value × Value)
  | .dict xs =>
    match xs.lookup "start", xs.lookup "end" with
    | some s, some e => some (s, e)
    | _, _ => Option.none
  | .list [a, b] => some (a, b)
  | .str s =>
    match splitDots [] s.toList with
    | some (a, b) => some (.str (String.mk a), .str (String.mk b))
    | Option.none => Option.none
  | _ => Option.none

/-- Model of `TypeValidator.normalize` (validator.py lines 26–81).  Branches
appear in source order; the `int(value)`/`float(value)` calls on values that
raise `TypeError` or `ValueError` become the corresponding `Invalid ...`
errors, exactly as the source's `except` clauses convert them. -/
def normalize (value : Value) (type_name : String) : Except String Value :=
  if type_name ∉ SUPPORTED_TYPES then .error (unsupportedMsg type_name)
  else if type_name = "integer" then
    match value with
    | .bool _ => .error "Boolean is not accepted as integer"
    | .int n => .ok (.int n)
    | .float q => .ok (.int (pyTrunc q))
    | .str s =>
      match pyParseInt s with
      | some n => .ok (.int n)
      | Option.none => .error "Invalid integer"
    | _ => .error "Invalid integer"
  else if type_name = "real" then
    match value with
    | .bool _ => .error "Boolean is not accepted as real"
    | .int n => .ok (.float (n : ℚ))
    | .float q => .ok (.float q)
    | .str s =>
      match pyParseFloat s with
      | some q => .ok (.float q)
      | Option.none => .error "Invalid real"
    | _ => .error "Invalid real"
  else if type_name = "char" then
    match value with
    | .str s =>
      if s.length ≠ 1 then .error "Char must be exactly one character"
      else .ok (.str s)
    | _ => .error "Invalid char"
  else if type_name = "string" then
    match value with
    | .str s => .ok (.str s)
    | v => .ok (.str (pyStr v))
  else if type_name = "date" then
    match parse_date value with
    | .ok s => .ok (.str s)
    | .error e => .error e
  else if type_name = "dateInvl" then
    match extractInterval value with
    | Option.none => .error intervalShapeMsg
    | some (sv, ev) =>
      match parse_date sv with
      | .error e => .error e
      | .ok s =>
        match parse_date ev with
        | .error e => .error e
        | .ok e =>
          if strLt e s then .error "dateInvl start must be <= end"
          else .ok (.dict [("start", .str s), ("end", .str e)])
  else .error ("Unknown type: " ++ type_name)

/-- Model of `TypeValidator.validate_row`'s per-column loop (validator.py
lines 94–97): walk the schema in order; a missing key or a failing
`normalize` aborts with that column's error. -/
def validateColumns (values : List (String × Value)) :
    List (String × String) → Except String (List (String × Value))
  | [] => .ok []
  | (name, type_name) :: rest =>
    match values.lookup name with
    | Option.none => .error ("Missing value for column " ++ sq ++ name ++ sq)
    | some v =>
      match normalize v type_name with
      | .error e => .error e
      | .ok nv =>
        match validateColumns values rest with
        | .error e => .error e
        | .ok tail => .ok ((name, nv) :: tail)

/-- Model of `TypeValidator.validate_row` (validator.py lines 83–99): first
the extra-key check against the schema's key set, then the per-column loop.
The normalized mapping's keys are the schema names in schema order, matching
the insertion order of the Python dict being built. -/
def validate_row (schema : List (String × String)) (values : List (String × Value)) :
    Except String (List (String × Value)) :=
  let allowed := schema.map Prod.fst
  let extra := (values.map Prod.fst).filter (fun k => k ∉ allowed)
  if extra ≠ [] then
    .error ("Unexpected columns: " ++ pyReprStrList (sortStrings extra.dedup))
  else validateColumns values schema

end TypeValidator

/-- Model of `Column` (column.py): an immutable (name, type) pair. -/
structure Column where
  name : String
  type_name : String
deriving DecidableEq

/-- Model of `Row` (row.py): a mapping from column name to value, the dict
modelled as an insertion-ordered association list. -/
structure Row where
  values : List (String × Value)

/-- JSON form of a column, the dict `\x7bname, type\x7d`. -/
structure ColumnJson where
  name : String
  type : String
deriving DecidableEq

/-- JSON form of a table: the dict `\x7bname, columns, rows\x7d`, each row
serialized as its raw values mapping (not wrapped). -/
structure TableJson where
  name : String
  columns : List ColumnJson
  rows : List (List (String × Value))

/-- JSON form of a database: the dict `\x7bname, tables\x7d`. -/
structure DatabaseJson where
  name : String
  tables : List TableJson

/-- Model of `Column.to_json`. -/
def Column.to_json (c : Column) : ColumnJson := ⟨c.name, c.type_name⟩

/-- Model of `Column.from_json`. -/
def Column.from_json (data : ColumnJson) : Column := ⟨data.name, data.type⟩

/-- Model of `Row.to_json`: the raw values mapping. -/
def Row.to_json (r : Row) : List (String × Value) := r.values

/-- Model of `Row.from_json`: `dict(data)` copies the mapping, which on the
association-list model is the identity. -/
def Row.from_json (data : List (String × Value)) : Row := ⟨data⟩

/-- Model of `Table` (table.py): a named ordered list of columns plus an
ordered list of rows. -/
structure Table where
  name : String
  columns : List Column
  rows : List Row

namespace Table

/-- Model of the `Table.schema` property: the (name, type) pairs of the
columns, in order. -/
def schema (t : Table) : List (String × String) :=
  t.columns.map (fun c => (c.name, c.type_name))

/-- Model of `Table.schema_signature` (the Python `tuple` of the schema,
modelled by the same list). -/
def schema_signature (t : Table) : List (String × String) := t.schema

/-- Model of `Table.from_schema`: an empty table over the given schema. -/
def from_schema (name : String) (schema : List (String × String)) : Table :=
  ⟨name, schema.map (fun p => ⟨p.1, p.2⟩), []⟩

/-- Model of `Table.add_row` (table.py lines 21–25): validate, then append
the normalized row.  The in-place mutation is modelled by returning the
updated table together with the returned row; when validation raises, no
updated table exists, which is the source's "table left unchanged". -/
def add_row (t : Table) (values : List (String × Value)) : Except String (Table × Row) :=
  match TypeValidator.validate_row t.schema values with
  | .error e => .error e
  | .ok normalized =>
    .ok ({ t with rows := t.rows ++ [⟨normalized⟩] }, ⟨normalized⟩)

/-- Model of `Table.update_row` (table.py lines 27–32): bounds check first
(the `index < 0` half of the source's check is vacuous for a `Nat` index),
then validate, then replace the row at `index`. -/
def update_row (t : Table) (index : Nat) (values : List (String × Value)) :
    Except String (Table × Row) :=
  if index ≥ t.rows.length then .error "Row index out of range"
  else
    match TypeValidator.validate_row t.schema values with
    | .error e => .error e
    | .ok normalized =>
      .ok ({ t with rows := t.rows.set index ⟨normalized⟩ }, ⟨normalized⟩)

/-- Model of `Table.get_rows`: the row values in insertion order.  (The
source's fallback for rows stored as plain dicts is dead in this typed model,
where every stored row is a `Row`.) -/
def get_rows (t : Table) : List (List (String × Value)) :=
  t.rows.map Row.values

/-- Model of `Table.to_json`.  (As in `get_rows`, the plain-dict fallback
branch is dead here.) -/
def to_json (t : Table) : TableJson :=
  ⟨t.name, t.columns.map Column.to_json, t.rows.map Row.to_json⟩

/-- Model of `Table.from_json`. -/
def from_json (data : TableJson) : Table :=
  ⟨data.name, data.columns.map Column.from_json, data.rows.map Row.from_json⟩

end Table

/-- Error message for a union of incompatible schemas (operations.py
line 25). -/
def incompatMsg (n ty1 ty2 : String) : String :=
  "Incompatible schemas: column " ++ sq ++ n ++ sq ++ " types differ (" ++
    ty1 ++ " vs " ++ ty2 ++ ")"

/-- Search for a shared column name whose declared types differ
(operations.py lines 20–25).  The source iterates the Python set
`set(left) & set(right)` in an unspecified order and raises at the first
conflict it meets; the model deterministically reports the first conflict in
`table1`'s column order.  Whether a conflict exists — and hence whether the
union fails — does not depend on that order. -/
def findConflict (s1 s2 : List (String × String)) : Option (String × String × String) :=
  s1.findSome? (fun p =>
    match s2.lookup p.1 with
    | some ty2 => if p.2 ≠ ty2 then some (p.1, p.2, ty2) else Option.none
    | Option.none => Option.none)

/-- Construction of the combined schema (operations.py lines 27–33): all of
`table1`'s columns in order, then each of `table2`'s columns whose name is
neither in `table1` nor already appended, in `table2`'s order. -/
def combineSchemas (s1 s2 : List (String × String)) : List (String × String) :=
  s1 ++ s2.foldl
    (fun acc p =>
      if p.1 ∈ s1.map Prod.fst ∨ p.1 ∈ acc.map Prod.fst then acc else acc ++ [p])
    []

/-- Widening of a raw row to the combined schema (operations.py lines 40–42):
for each combined column take `raw.get(col, None)` — the row's own value when
the key is present, the explicit `None` marker otherwise. -/
def widenRow (schema_sig : List (String × String)) (raw : List (String × Value)) : Row :=
  ⟨schema_sig.map (fun p => (p.1, ((raw.lookup p.1).getD Value.none)))⟩

/-- Model of `union_tables` (operations.py lines 19–49): check overlapping
columns for equal types, build the combined schema, then append every row of
`table1` followed by every row of `table2`, each widened with `None` fill,
without re-validation. -/
def union_tables (table1 table2 : Table) : Except String Table :=
  match findConflict table1.schema table2.schema with
  | some (n, ty1, ty2) => .error (incompatMsg n ty1 ty2)
  | Option.none =>
    let combined := combineSchemas table1.schema table2.schema
    let result := Table.from_schema (table1.name ++ "_UNION_" ++ table2.name) combined
    let schema_sig := result.schema_signature
    .ok { result with
          rows := (table1.get_rows ++ table2.get_rows).map (widenRow schema_sig) }

/-- Model of a schema element accepted by `Database.create_table`: either an
ordered (name, type) pair or a `\x7bname, type\x7d` record (database.py lines
23–28; the branch raising on any other shape is dead in this typed model). -/
inductive SchemaItem where
  | pair (name type_name : String) : SchemaItem
  | record (name type_name : String) : SchemaItem

/-- Name/type pair denoted by a schema element. -/
def SchemaItem.fields : SchemaItem → String × String
  | .pair n t => (n, t)
  | .record n t => (n, t)

/-- Model of the schema-normalization loop of `Database.create_table`
(database.py lines 20–33): accumulate elements in order, rejecting a column
name already seen. -/
def normalizeSchema (seen : List String) :
    List SchemaItem → Except String (List (String × String))
  | [] => .ok []
  | item :: rest =>
    let (col_name, type_name) := item.fields
    if col_name ∈ seen then
      .error ("Duplicate column name " ++ sq ++ col_name ++ sq)
    else
      match normalizeSchema (col_name :: seen) rest with
      | .error e => .error e
      | .ok tail => .ok ((col_name, type_name) :: tail)

/-- Model of `Database` (database.py): a named registry of tables.  The
Python dict `tables` is modelled as an insertion-ordered association list
with duplicate-free keys. -/
structure Database where
  name : String
  tables : List (String × Table)

/-- Python dict assignment `m[k] = t`: replace in place when the key exists,
append otherwise. -/
def dictInsert (m : List (String × Table)) (k : String) (t : Table) :
    List (String × Table) :=
  if m.any (fun p => p.1 = k) then
    m.map (fun p => if p.1 = k then (k, t) else p)
  else m ++ [(k, t)]

namespace Database

/-- Model of `Database.create_table` (database.py lines 16–37): reject an
existing table name, normalize the schema rejecting duplicate columns, then
register a new empty table under the name. -/
def create_table (db : Database) (name : String) (schema : List SchemaItem) :
    Except String (Database × Table) :=
  if db.tables.any (fun p => p.1 = name) then
    .error ("Table " ++ sq ++ name ++ sq ++ " already exists")
  else
    match normalizeSchema [] schema with
    | .error e => .error e
    | .ok normalized_schema =>
      let table := Table.from_schema name normalized_schema
      .ok ({ db with tables := db.tables ++ [(name, table)] }, table)

/-- Model of `Database.drop_table` (database.py lines 39–42). -/
def drop_table (db : Database) (name : String) : Except String Database :=
  if db.tables.any (fun p => p.1 = name) then
    .ok { db with tables := db.tables.eraseP (fun p => p.1 == name) }
  else .error ("Table " ++ sq ++ name ++ sq ++ " does not exist")

/-- Model of `Database.get_table` (database.py lines 44–47). -/
def get_table (db : Database) (name : String) : Except String Table :=
  match db.tables.lookup name with
  | some t => .ok t
  | Option.none => .error ("Table " ++ sq ++ name ++ sq ++ " does not exist")

/-- Model of `Database.insert_row` (database.py lines 49–50): delegate to the
named table's `add_row`; the in-place mutation of the stored table is
modelled by re-storing the updated table under its key. -/
def insert_row (db : Database) (table_name : String) (values : List (String × Value)) :
    Except String Database :=
  match db.get_table table_name with
  | .error e => .error e
  | .ok t =>
    match t.add_row values with
    | .error e => .error e
    | .ok (t2, _) => .ok { db with tables := dictInsert db.tables table_name t2 }

/-- Model of `Database.edit_row` (database.py lines 52–53). -/
def edit_row (db : Database) (table_name : String) (index : Nat)
    (values : List (String × Value)) : Except String Database :=
  match db.get_table table_name with
  | .error e => .error e
  | .ok t =>
    match t.update_row index values with
    | .error e => .error e
    | .ok (t2, _) => .ok { db with tables := dictInsert db.tables table_name t2 }

/-- Model of `Database.to_json` (database.py lines 55–56): the registered
tables serialized in insertion order. -/
def to_json (db : Database) : DatabaseJson :=
  ⟨db.name, db.tables.map (fun p => p.2.to_json)⟩

/-- Model of `Database.from_json` (database.py lines 64–70): rebuild each
table and store it under its own `name` field.  (`data.get("name",
"database")` always finds the key in the typed document model.)  `load` reads
a file and delegates to this function; the file I/O is outside the model. -/
def from_json (data : DatabaseJson) : Database :=
  ⟨data.name,
   data.tables.foldl (fun acc tj =>
     let table := Table.from_json tj
     dictInsert acc table.name table) []⟩

end Database

/-- Column-name list of a table, in declaration order. -/
def Table.colNames (t : Table) : List String := t.columns.map Column.name

/-- Wellformedness of a table's stored rows: each row's key list is exactly
the table's column-name list.  `validate_row` produces its normalized dict by
inserting the schema's keys in schema order, so every row stored through
`add_row`/`update_row` has this shape, as does every row built by the union's
widening. -/
def Table.RowsWF (t : Table) : Prop :=
  ∀ r ∈ t.rows, r.values.map Prod.fst = t.colNames

/-- Relation between a source row and its widened image in a union result:
the widened row ranges over the whole combined schema, its value at a column
the source table has is the row's own stored value, and its value at a column
the source table lacks is the explicit absent marker `Value.none` (not a zero
value — a distinct constructor). -/
def WidenedFrom (src u : Table) (r w : Row) : Prop :=
  w.values.map Prod.fst = u.colNames ∧
  ∀ n v, (n, v) ∈ w.values →
    (n ∈ src.colNames ∧ r.values.lookup n = some v) ∨
    (n ∉ src.colNames ∧ v = Value.none)

/-- Database invariant from the spec: every registry entry stores a table
whose own `name` equals its key. -/
def Database.NameInv (db : Database) : Prop :=
  ∀ p ∈ db.tables, p.2.name = p.1

/-- Wellformedness of a database as the dict model guarantees it: registry
keys are duplicate-free and every entry satisfies the name invariant. -/
def Database.WF (db : Database) : Prop :=
  (db.tables.map Prod.fst).Nodup ∧ db.NameInv

/-- Boolean string-prefix test over the character lists. -/
def strHasPrefix (p s : String) : Bool := p.toList.isPrefixOf s.toList

/-- Concrete sample table (the spec's worked example): `t1(id:integer,
name:string)` with the single row `(1, "Alice")`. -/
def tblA : Table :=
  ⟨"t1", [⟨"id", "integer"⟩, ⟨"name", "string"⟩],
   [⟨[("id", .int 1), ("name", .str "Alice")]⟩]⟩

/-- Concrete sample table: `t2(id:integer, age:integer)` with the single row
`(2, 25)`. -/
def tblB : Table :=
  ⟨"t2", [⟨"id", "integer"⟩, ⟨"age", "integer"⟩],
   [⟨[("id", .int 2), ("age", .int 25)]⟩]⟩

/-- Concrete sample table with a `value: string` column, schema-incompatible
with `tblD`. -/
def tblC : Table := ⟨"t1", [⟨"id", "integer"⟩, ⟨"value", "string"⟩], []⟩

/-- Concrete sample table with a `value: integer` column. -/
def tblD : Table := ⟨"t2", [⟨"id", "integer"⟩, ⟨"value", "integer"⟩], []⟩

/-- Concrete sample database holding one `users` table with one row. -/
def dbSample : Database :=
  ⟨"test_db",
   [("users",
     ⟨"users", [⟨"id", "integer"⟩, ⟨"name", "string"⟩],
      [⟨[("id", .int 1), ("name", .str "Alice")]⟩]⟩)]⟩

end TDMS

namespace TDMS

/-- Bounds characterizing Nat division seen in ℚ: `a / d` is the greatest
integer not exceeding the exact quotient. -/
theorem natDiv_bounds (a d : Nat) (hd : 0 < d) :
    ((a / d : Nat) : ℚ) ≤ (a : ℚ) / (d : ℚ) ∧ (a : ℚ) / (d : ℚ) < ((a / d : Nat) : ℚ) + 1 := by
  have hdq : (0 : ℚ) < (d : ℚ) := by exact_mod_cast hd
  constructor
  · rw [le_div_iff₀ hdq]
    exact_mod_cast Nat.div_mul_le_self a d
  · rw [div_lt_iff₀ hdq]
    have h := (Nat.div_lt_iff_lt_mul hd).mp (Nat.lt_succ_self (a / d))
    exact_mod_cast h

/-- C7: normalization to type `string` always succeeds: for every value of the
JSON-facing domain, `normalize` with tag `string` returns `ok` of some string
and never an error, and string inputs pass through unchanged. -/
theorem normalize_string_total :
    (∀ v : Value, ∃ s : String, TypeValidator.normalize v "string" = .ok (.str s)) ∧
    (∀ s : String, TypeValidator.normalize (.str s) "string" = .ok (.str s)) := by
  constructor
  · intro v
    cases v <;> exact ⟨_, rfl⟩
  · intro s
    rfl

/-- C8 counterexample: the input `2 ^ 63` lies outside the 64-bit signed range
`[-2 ^ 63, 2 ^ 63 - 1]`, yet `normalize` with tag `integer` accepts it and
returns it unchanged — there is no overflow failure, contradicting the claim
that the normalized result always lies within the 64-bit signed range and
that out-of-range inputs fail. -/
theorem normalize_integer_no_overflow_check :
    TypeValidator.normalize (.int (2 ^ 63)) "integer" = .ok (.int (2 ^ 63)) ∧
    ¬ ((2 : Int) ^ 63 ≤ 2 ^ 63 - 1) := by
  constructor
  · rfl
  · norm_num

/-- C8 amended: normalization to type `integer` produces a Python
arbitrary-precision integer with no range restriction: every integer input
(of any magnitude, including far beyond 64 bits) normalizes successfully to
its exact value, and no overflow error exists. -/
theorem normalize_integer_unbounded :
    (∀ n : Int, TypeValidator.normalize (.int n) "integer" = .ok (.int n)) ∧
    TypeValidator.normalize (.int (2 ^ 64 + 5)) "integer" = .ok (.int (2 ^ 64 + 5)) :=
  ⟨fun _ => rfl, rfl⟩

/-- C10: `normalize` with type `integer` accepts every finite float (modelled
as the exact rational it denotes) and returns it truncated toward zero: the
result is below the input and within distance one of it for nonnegative
inputs, above it and within distance one for nonpositive inputs; in
particular 3.9 normalizes to 3 and -3.9 to -3, not to an error. -/
theorem normalize_integer_accepts_floats :
    (∀ q : ℚ, TypeValidator.normalize (.float q) "integer" = .ok (.int (pyTrunc q))) ∧
    (∀ q : ℚ, 0 ≤ q → ((pyTrunc q : ℚ) ≤ q ∧ q < (pyTrunc q : ℚ) + 1)) ∧
    (∀ q : ℚ, q ≤ 0 → (q ≤ (pyTrunc q : ℚ) ∧ (pyTrunc q : ℚ) - 1 < q)) ∧
    TypeValidator.normalize (.float (39 / 10)) "integer" = .ok (.int 3) ∧
    TypeValidator.normalize (.float (-(39 / 10))) "integer" = .ok (.int (-3)) := by
  have hpos : ∀ q : ℚ, 0 ≤ q → ((pyTrunc q : ℚ) ≤ q ∧ q < (pyTrunc q : ℚ) + 1) := by
    intro q h
    have hnum : 0 ≤ q.num := Rat.num_nonneg.mpr h
    obtain ⟨a, ha⟩ : ∃ a : ℕ, (a : ℤ) = q.num := ⟨q.num.toNat, Int.toNat_of_nonneg hnum⟩
    set d := q.den with hd
    have hdpos : 0 < d := q.den_pos
    have htr : (pyTrunc q : ℚ) = ((a / d : ℕ) : ℚ) := by
      simp only [pyTrunc, if_pos hnum]
      rw [show q.num.toNat = a by omega, ← hd]
      norm_cast
    have hq : q = (a : ℚ) / (d : ℚ) := by
      rw [← Rat.num_div_den q, ← ha, ← hd]
      push_cast
      ring
    have hb := natDiv_bounds a d hdpos
    rw [htr, hq]
    exact hb
  have hneg : ∀ q : ℚ, q ≤ 0 → (q ≤ (pyTrunc q : ℚ) ∧ (pyTrunc q : ℚ) - 1 < q) := by
    intro q h
    by_cases hnum : 0 ≤ q.num
    · have hq0 : q = 0 := le_antisymm h (Rat.num_nonneg.mp hnum)
      subst hq0
      have h0 : pyTrunc 0 = 0 := rfl
      rw [h0]
      norm_num
    · push_neg at hnum
      obtain ⟨b, hbc⟩ : ∃ b : ℕ, (b : ℤ) = -q.num := ⟨(-q.num).toNat, Int.toNat_of_nonneg (by omega)⟩
      set d := q.den with hd
      have hdpos : 0 < d := q.den_pos
      have htr : (pyTrunc q : ℚ) = -((b / d : ℕ) : ℚ) := by
        simp only [pyTrunc, if_neg (not_le.mpr hnum)]
        rw [show (-q.num).toNat = b by omega, ← hd]
        norm_cast
      have hq : q = -((b : ℚ) / (d : ℚ)) := by
        rw [← Rat.num_div_den q, show q.num = -(b : ℤ) by omega, ← hd]
        push_cast
        ring
      have hb := natDiv_bounds b d hdpos
      rw [htr, hq]
      constructor
      · have := hb.1
        linarith
      · have := hb.2
        linarith
  have h39 : (39 / 10 : ℚ) = (⟨39, 10, by decide, by decide⟩ : ℚ) := by
    rw [Rat.mk'_eq_divInt, Rat.divInt_eq_div]; norm_num
  have h39n : (-(39 / 10) : ℚ) = (⟨-39, 10, by decide, by decide⟩ : ℚ) := by
    rw [Rat.mk'_eq_divInt, Rat.divInt_eq_div]; push_cast; ring
  refine ⟨fun q => rfl, hpos, hneg, ?_, ?_⟩
  · rw [h39]; rfl
  · rw [h39n]; rfl

/-- C10 witness: the bounds instantiated at the concrete float 3.9. -/
theorem normalize_integer_accepts_floats_witness :
    ((0 : ℚ) ≤ 39 / 10) ∧
    ((pyTrunc (39 / 10) : ℚ) ≤ 39 / 10 ∧ (39 / 10 : ℚ) < (pyTrunc (39 / 10) : ℚ) + 1) :=
  ⟨by norm_num, normalize_integer_accepts_floats.2.1 (39 / 10) (by norm_num)⟩

/-- C4: when validation of an input mapping fails, `add_row` propagates the
validator's error — and, for an in-range index, so does `update_row` (on an
out-of-range index the source raises its bounds error before validating).  In
this functional model an error result carries no updated table, which is the
source's "table left unchanged, no partial append or replacement": the
mutation happens only after `validate_row` has fully succeeded.  On success
`add_row` returns the table with exactly one row appended, holding exactly
the normalized values. -/
theorem row_mutation_atomic :
    (∀ (t : Table) (values : List (String × Value)) (e : String),
       TypeValidator.validate_row t.schema values = .error e →
       t.add_row values = .error e) ∧
    (∀ (t : Table) (index : Nat) (values : List (String × Value)) (e : String),
       index < t.rows.length →
       TypeValidator.validate_row t.schema values = .error e →
       t.update_row index values = .error e) ∧
    (∀ (t : Table) (values nv : List (String × Value)),
       TypeValidator.validate_row t.schema values = .ok nv →
       t.add_row values = .ok ({ t with rows := t.rows ++ [⟨nv⟩] }, ⟨nv⟩)) := by
  refine ⟨?_, ?_, ?_⟩
  · intro t values e h
    simp only [Table.add_row, h]
  · intro t index values e hi h
    simp only [Table.update_row, h]
    rw [if_neg (by omega : ¬ index ≥ t.rows.length)]
  · intro t values nv h
    simp only [Table.add_row, h]

/-- C4 witness: a type-invalid value is rejected by the validator and
`add_row` fails with that same error on a concrete table. -/
theorem row_mutation_atomic_witness :
    TypeValidator.validate_row (Table.from_schema "users" [("id", "integer")]).schema
        [("id", Value.str "x")] = .error "Invalid integer" ∧
    (Table.from_schema "users" [("id", "integer")]).add_row [("id", Value.str "x")]
        = .error "Invalid integer" :=
  ⟨rfl, row_mutation_atomic.1 _ _ _ rfl⟩

/-- Enumeration of the errors `parse_date` can produce. -/
theorem parse_date_error_mem (v : Value) (e : String)
    (h : TypeValidator.parse_date v = .error e) :
    e = "Invalid date format, expected YYYY-MM-DD" ∨ e = "Invalid date value" := by
  cases v <;> simp only [TypeValidator.parse_date] at h
  case str s =>
    split at h
    · exact absurd h (by simp)
    · injection h with he
      exact Or.inl he.symm
  all_goals injection h with he; exact Or.inr he.symm

/-- Errors produced by `normalize` on tag `date` come from `parse_date` and
are not unsupported-type errors. -/
theorem normalize_date_errors (v : Value) (e : String)
    (h : TypeValidator.normalize v "date" = .error e) :
    strHasPrefix "Unsupported type" e = false := by
  simp +decide only [TypeValidator.normalize, ite_true, ite_false] at h
  cases hp : TypeValidator.parse_date v with
  | error e1 =>
    simp only [hp] at h
    injection h with he
    subst he
    rcases parse_date_error_mem _ _ hp with rfl | rfl <;> decide
  | ok s1 =>
    simp only [hp] at h
    exact Except.noConfusion h

/-- Errors produced by `normalize` on tag `dateInvl` are the shape error, a
`parse_date` error, or the ordering error — none an unsupported-type error. -/
theorem normalize_dateInvl_errors (v : Value) (e : String)
    (h : TypeValidator.normalize v "dateInvl" = .error e) :
    strHasPrefix "Unsupported type" e = false := by
  simp +decide only [TypeValidator.normalize, ite_true, ite_false] at h
  cases hx : TypeValidator.extractInterval v with
  | none =>
    simp only [hx] at h
    injection h with he
    subst he
    decide
  | some p =>
    obtain ⟨sv, ev⟩ := p
    simp only [hx] at h
    cases hs : TypeValidator.parse_date sv with
    | error e1 =>
      simp only [hs] at h
      injection h with he
      subst he
      rcases parse_date_error_mem _ _ hs with rfl | rfl <;> decide
    | ok s1 =>
      simp only [hs] at h
      cases he2 : TypeValidator.parse_date ev with
      | error e2 =>
        simp only [he2] at h
        injection h with he
        subst he
        rcases parse_date_error_mem _ _ he2 with rfl | rfl <;> decide
      | ok s2 =>
        simp only [he2] at h
        cases hlt : strLt s2 s1 <;>
          simp only [hlt, Bool.false_eq_true, eq_self_iff_true, ite_true, ite_false] at h
        · exact Except.noConfusion h
        · injection h with he
          subst he
          decide

/-- Errors produced by `normalize` on a supported tag are value-level
validation errors: none of them is an unsupported-type error. -/
theorem normalize_supported_errors (v : Value) (ty e : String)
    (hty : ty ∈ TypeValidator.SUPPORTED_TYPES)
    (h : TypeValidator.normalize v ty = .error e) :
    strHasPrefix "Unsupported type" e = false := by
  fin_cases hty
  · cases v <;> simp +decide only [TypeValidator.normalize, ite_true, ite_false] at h <;> repeat' split at h
    all_goals try contradiction
    all_goals (injection h with he; subst he; decide)
  · cases v <;> simp +decide only [TypeValidator.normalize, ite_true, ite_false] at h <;> repeat' split at h
    all_goals try contradiction
    all_goals (injection h with he; subst he; decide)
  · cases v <;> simp +decide only [TypeValidator.normalize, ite_true, ite_false] at h <;> repeat' split at h
    all_goals try contradiction
    all_goals (injection h with he; subst he; decide)
  · cases v <;> simp +decide only [TypeValidator.normalize, ite_true, ite_false] at h <;>
      exact Except.noConfusion h
  · exact normalize_date_errors v e h
  · exact normalize_dateInvl_errors v e h

/-- C6 counterexample: the tag `dateInterval` named by the spec is rejected
by `normalize` with an unsupported-type error on a perfectly shaped interval
input, contradicting the claim that `dateInterval` is among the six accepted
tags; the tag the code supports is spelled `dateInvl`. -/
theorem normalize_dateInterval_unsupported :
    TypeValidator.normalize (.str "2020-01-01..2020-01-02") "dateInterval"
      = .error "Unsupported type: dateInterval" := rfl

/-- C6 (amended): the supported tag set is exactly
{integer, real, char, string, date, dateInvl}: every tag outside
`SUPPORTED_TYPES` fails with the unsupported-type error regardless of the
value, and on the six supported tags `normalize` never produces an
unsupported-type error — only value-level validation errors. -/
theorem supported_types_exact :
    (∀ (v : Value) (ty : String), ty ∉ TypeValidator.SUPPORTED_TYPES →
       TypeValidator.normalize v ty = .error (TypeValidator.unsupportedMsg ty)) ∧
    (∀ (v : Value) (ty e : String), ty ∈ TypeValidator.SUPPORTED_TYPES →
       TypeValidator.normalize v ty = .error e →
       strHasPrefix "Unsupported type" e = false) := by
  constructor
  · intro v ty h
    simp only [TypeValidator.normalize]
    rw [if_pos h]
  · intro v ty e hty h
    exact normalize_supported_errors v ty e hty h

/-- C6 witness: the unsupported-tag half instantiated at the concrete tag
`dateInterval`, and the supported half at tag `integer` with the concrete
error raised on a non-numeric string. -/
theorem supported_types_exact_witness :
    ("dateInterval" ∉ TypeValidator.SUPPORTED_TYPES) ∧
    TypeValidator.normalize (.int 0) "dateInterval"
      = .error (TypeValidator.unsupportedMsg "dateInterval") ∧
    ("integer" ∈ TypeValidator.SUPPORTED_TYPES) ∧
    strHasPrefix "Unsupported type" "Invalid integer" = false :=
  ⟨by decide, supported_types_exact.1 (.int 0) "dateInterval" (by decide),
   by decide, supported_types_exact.2 (.str "xy") "integer" "Invalid integer" (by decide) rfl⟩

/-- Association-list lookup spec: a successful lookup yields a member. -/
theorem lookup_mem {β : Type} {l : List (String × β)} {k : String} {v : β}
    (h : l.lookup k = some v) : (k, v) ∈ l := by
  induction l with
  | nil => simp [List.lookup] at h
  | cons p rest ih =>
    obtain ⟨k1, v1⟩ := p
    cases hk : (k == k1) with
    | true =>
      simp only [List.lookup, hk] at h
      injection h with hv
      subst hv
      have hkk : k = k1 := by simpa using hk
      subst hkk
      exact List.mem_cons_self _ _
    | false =>
      simp only [List.lookup, hk] at h
      exact List.mem_cons_of_mem _ (ih h)

/-- Association-list lookup spec: lookup fails exactly when the key is absent. -/
theorem lookup_none_iff {β : Type} {l : List (String × β)} {k : String} :
    l.lookup k = Option.none ↔ k ∉ l.map Prod.fst := by
  induction l with
  | nil => simp [List.lookup]
  | cons p rest ih =>
    obtain ⟨k1, v1⟩ := p
    cases hk : (k == k1) with
    | true =>
      have hkk : k = k1 := by simpa using hk
      subst hkk
      simp [List.lookup, hk]
    | false =>
      have hne : k ≠ k1 := by simpa using hk
      simp [List.lookup, hk, ih, hne]

/-- Association-list lookup spec: on duplicate-free keys a member is found. -/
theorem lookup_of_mem_nodup {β : Type} {l : List (String × β)} {k : String} {v : β}
    (hnd : (l.map Prod.fst).Nodup) (h : (k, v) ∈ l) : l.lookup k = some v := by
  induction l with
  | nil => cases h
  | cons p rest ih =>
    obtain ⟨k1, v1⟩ := p
    simp only [List.map_cons, List.nodup_cons] at hnd
    rcases List.mem_cons.mp h with heq | htl
    · injection heq with he1 he2
      subst he1
      subst he2
      simp [List.lookup]
    · have hk : k ≠ k1 := by
        intro hkk
        subst hkk
        exact hnd.1 (List.mem_map.mpr ⟨(k, v), htl, rfl⟩)
      simp only [List.lookup, beq_eq_false_iff_ne.mpr hk]
      exact ih hnd.2 htl

/-- Key list of a table's schema is its column-name list. -/
theorem schema_names (t : Table) : t.schema.map Prod.fst = t.colNames := by
  simp only [Table.schema, Table.colNames, List.map_map]
  rfl

/-- `findConflict` returns nothing exactly when every `table1` column whose
name is shared agrees with `table2` on the declared type. -/
theorem findConflict_none_iff (s1 s2 : List (String × String)) :
    findConflict s1 s2 = Option.none ↔
      ∀ p ∈ s1, ∀ ty2, s2.lookup p.1 = some ty2 → p.2 = ty2 := by
  simp only [findConflict, List.findSome?_eq_none_iff]
  constructor
  · intro h p hp ty2 hl
    have hh := h p hp
    simp only [hl] at hh
    by_contra hne
    simp [hne] at hh
  · intro h p hp
    cases hl : s2.lookup p.1 with
    | none => simp [hl]
    | some ty2 => simp [hl, h p hp ty2 hl]

/-- A reported conflict is a real conflict: the named column carries the two
differing declared types. -/
theorem findConflict_some {s1 s2 : List (String × String)} {n ty1 ty2 : String}
    (h : findConflict s1 s2 = some (n, ty1, ty2)) :
    (n, ty1) ∈ s1 ∧ s2.lookup n = some ty2 ∧ ty1 ≠ ty2 := by
  simp only [findConflict] at h
  obtain ⟨p, hp, hf⟩ := List.exists_of_findSome?_eq_some h
  cases hl : s2.lookup p.1 with
  | none => simp [hl] at hf
  | some ty0 =>
    simp only [hl] at hf
    by_cases hne : p.2 = ty0
    · simp [hne] at hf
    · rw [if_pos hne] at hf
      have h3 := Option.some.inj hf
      have h4 : p.1 = n := congrArg Prod.fst h3
      have h5 : p.2 = ty1 := congrArg (fun x => x.2.1) h3
      have h6 : ty0 = ty2 := congrArg (fun x => x.2.2) h3
      subst h4
      subst h5
      subst h6
      exact ⟨by simpa using hp, hl, hne⟩

/-- The union's schema-accumulation fold is an append-filter, provided the
appended side has duplicate-free names and is disjoint from the accumulator. -/
theorem unionFold_eq_filter (s1 : List (String × String)) :
    ∀ (s2 acc : List (String × String)),
      (s2.map Prod.fst).Nodup →
      (∀ n ∈ acc.map Prod.fst, n ∉ s2.map Prod.fst) →
      s2.foldl
        (fun acc p =>
          if p.1 ∈ s1.map Prod.fst ∨ p.1 ∈ acc.map Prod.fst then acc else acc ++ [p]) acc
        = acc ++ s2.filter (fun p => decide (p.1 ∉ s1.map Prod.fst)) := by
  intro s2
  induction s2 with
  | nil => intro acc _ _; simp
  | cons p rest ih =>
    intro acc hnd hdisj
    simp only [List.map_cons, List.nodup_cons] at hnd
    by_cases hs1 : p.1 ∈ s1.map Prod.fst
    · rw [List.foldl_cons, if_pos (Or.inl hs1)]
      rw [ih acc hnd.2 (fun n hn => fun hmem =>
        hdisj n hn (List.mem_cons_of_mem _ hmem))]
      simp [List.filter_cons, hs1]
    · have hacc : p.1 ∉ acc.map Prod.fst := fun hin =>
        hdisj p.1 hin (List.mem_cons_self _ _)
      rw [List.foldl_cons, if_neg (by tauto)]
      rw [ih (acc ++ [p]) hnd.2 ?_]
      · simp [List.filter_cons, hs1]
      · intro n hn
        have hn2 : n ∈ acc.map Prod.fst ∨ n = p.1 := by simpa using hn
        rcases hn2 with hn2 | hn2
        · exact fun hmem => hdisj n hn2 (List.mem_cons_of_mem _ hmem)
        · intro hmem
          exact hnd.1 (hn2 ▸ hmem)

/-- The combined schema is `table1`'s schema followed by the `table2` columns
with fresh names, in order. -/
theorem combineSchemas_eq (s1 s2 : List (String × String))
    (hnd : (s2.map Prod.fst).Nodup) :
    combineSchemas s1 s2
      = s1 ++ s2.filter (fun p => decide (p.1 ∉ s1.map Prod.fst)) := by
  unfold combineSchemas
  rw [unionFold_eq_filter s1 s2 [] hnd (by simp)]
  rfl

/-- Schema of a freshly constructed table is the schema it was built from. -/
theorem from_schema_schema (nm : String) (s : List (String × String)) :
    (Table.from_schema nm s).schema = s := by
  simp only [Table.from_schema, Table.schema, List.map_map]
  have h : ((fun c : Column => (c.name, c.type_name)) ∘ fun p : String × String => ⟨p.1, p.2⟩)
      = fun p : String × String => p := by
    funext p
    rfl
  rw [h]
  exact List.map_id' s

/-- Shape of a successful union. -/
theorem union_tables_eq_ok (t1 t2 : Table)
    (hf : findConflict t1.schema t2.schema = Option.none) :
    union_tables t1 t2 = .ok
      { Table.from_schema (t1.name ++ "_UNION_" ++ t2.name)
          (combineSchemas t1.schema t2.schema) with
        rows := (t1.get_rows ++ t2.get_rows).map
          (widenRow (Table.from_schema (t1.name ++ "_UNION_" ++ t2.name)
            (combineSchemas t1.schema t2.schema)).schema_signature) } := by
  simp only [union_tables, hf]

/-- Membership in the combined schema is membership in either input schema,
for compatible inputs. -/
theorem combined_mem_iff (t1 t2 : Table) (h2 : t2.colNames.Nodup)
    (hcompat : ∀ p ∈ t1.schema, ∀ q ∈ t2.schema, p.1 = q.1 → p.2 = q.2) :
    ∀ p, p ∈ combineSchemas t1.schema t2.schema ↔ p ∈ t1.schema ∨ p ∈ t2.schema := by
  intro p
  rw [combineSchemas_eq _ _ (by rw [schema_names]; exact h2)]
  constructor
  · intro h
    rcases List.mem_append.mp h with h | h
    · exact Or.inl h
    · exact Or.inr (List.mem_of_mem_filter h)
  · intro h
    rcases h with h | h
    · exact List.mem_append_left _ h
    · by_cases hin : p.1 ∈ t1.schema.map Prod.fst
      · obtain ⟨q, hq, hq1⟩ := List.mem_map.mp hin
        have hq2 := hcompat q hq p h hq1
        have hqp : q = p := by
          obtain ⟨qa, qb⟩ := q
          obtain ⟨pa, pb⟩ := p
          simp_all
        exact List.mem_append_left _ (hqp ▸ hq)
      · refine List.mem_append_right _ (List.mem_filter.mpr ⟨h, ?_⟩)
        simpa using hin

/-- Compatibility implies the conflict scan finds nothing. -/
theorem findConflict_eq_none_of_compat (t1 t2 : Table)
    (hcompat : ∀ p ∈ t1.schema, ∀ q ∈ t2.schema, p.1 = q.1 → p.2 = q.2) :
    findConflict t1.schema t2.schema = Option.none := by
  rw [findConflict_none_iff]
  intro p hp ty2 hl
  exact hcompat p hp (p.1, ty2) (lookup_mem hl) rfl

/-- Widening a wellformed row over the union result's signature satisfies the
claim's description: full combined width, own values where the source table
has the column, the explicit absent marker where it lacks it. -/
theorem widenRow_widenedFrom (src u : Table) (r : Row)
    (hkeys : r.values.map Prod.fst = src.colNames) :
    WidenedFrom src u r (widenRow u.schema_signature r.values) := by
  unfold WidenedFrom
  constructor
  · show (u.schema.map fun p => (p.1, ((r.values.lookup p.1).getD Value.none))).map Prod.fst
        = u.colNames
    rw [List.map_map]
    exact schema_names u
  · intro n v hmem
    have hmem2 : (n, v) ∈ u.schema_signature.map
        (fun p => (p.1, ((r.values.lookup p.1).getD Value.none))) := hmem
    obtain ⟨p, hp, he⟩ := List.mem_map.mp hmem2
    have he1 : p.1 = n := congrArg Prod.fst he
    have he2 : ((r.values.lookup p.1).getD Value.none) = v := congrArg Prod.snd he
    subst he1
    cases hl : r.values.lookup p.1 with
    | some v0 =>
      rw [hl] at he2
      simp only [Option.getD_some] at he2
      subst he2
      exact Or.inl ⟨by
        rw [← hkeys]
        exact List.mem_map.mpr ⟨(p.1, v0), lookup_mem hl, rfl⟩, rfl⟩
    | none =>
      rw [hl] at he2
      simp only [Option.getD_none] at he2
      subst he2
      refine Or.inr ⟨?_, rfl⟩
      rw [← hkeys]
      exact lookup_none_iff.mp hl

/-- C1: for union-compatible wellformed tables, `union_tables` succeeds with
a table holding exactly `len(A.rows) + len(B.rows)` rows: A's rows first at
their original positions, then B's rows, each widened to the combined schema
with the row's own (already normalized) values for columns its source table
has and the explicit absent marker `Value.none` — a constructor distinct from
every zero value — for columns its source table lacks; and the result's
column set is the set union of the two inputs' column sets. -/
theorem union_tables_rows_and_columns (t1 t2 : Table)
    (h1 : t1.colNames.Nodup) (h2 : t2.colNames.Nodup)
    (hr1 : t1.RowsWF) (hr2 : t2.RowsWF)
    (hcompat : ∀ p ∈ t1.schema, ∀ q ∈ t2.schema, p.1 = q.1 → p.2 = q.2) :
    ∃ u, union_tables t1 t2 = .ok u ∧
      u.rows.length = t1.rows.length + t2.rows.length ∧
      (∀ (i : Nat) (r : Row), t1.rows[i]? = some r →
        ∃ w, u.rows[i]? = some w ∧ WidenedFrom t1 u r w) ∧
      (∀ (i : Nat) (r : Row), t2.rows[i]? = some r →
        ∃ w, u.rows[t1.rows.length + i]? = some w ∧ WidenedFrom t2 u r w) ∧
      (∀ p, p ∈ u.schema ↔ p ∈ t1.schema ∨ p ∈ t2.schema) := by
  have hf := findConflict_eq_none_of_compat t1 t2 hcompat
  refine ⟨_, union_tables_eq_ok t1 t2 hf, ?_, ?_, ?_, ?_⟩
  · show ((t1.get_rows ++ t2.get_rows).map _).length = _
    simp [Table.get_rows]
  · intro i r hir
    have hlt : i < t1.rows.length := by
      by_contra hge
      push_neg at hge
      rw [List.getElem?_eq_none hge] at hir
      cases hir
    refine ⟨_, ?_, widenRow_widenedFrom t1 _ r (hr1 r (by
      have := List.getElem?_eq_some.mp hir
      obtain ⟨hh, rfl⟩ := this
      exact List.getElem_mem hh))⟩
    show ((t1.get_rows ++ t2.get_rows).map _)[i]? = _
    rw [List.getElem?_map, Table.get_rows, Table.get_rows, List.getElem?_append]
    rw [if_pos (by simpa using hlt)]
    rw [List.getElem?_map, hir]
    rfl
  · intro i r hir
    refine ⟨_, ?_, widenRow_widenedFrom t2 _ r (hr2 r (by
      have := List.getElem?_eq_some.mp hir
      obtain ⟨hh, rfl⟩ := this
      exact List.getElem_mem hh))⟩
    show ((t1.get_rows ++ t2.get_rows).map _)[t1.rows.length + i]? = _
    rw [List.getElem?_map, Table.get_rows, Table.get_rows,
      List.getElem?_append_right (by simp)]
    rw [List.getElem?_map]
    have : t1.rows.length + i - (t1.rows.map Row.values).length = i := by simp
    rw [this, hir]
    rfl
  · intro p
    show p ∈ (Table.from_schema (t1.name ++ "_UNION_" ++ t2.name)
        (combineSchemas t1.schema t2.schema)).schema ↔ _
    rw [from_schema_schema]
    exact combined_mem_iff t1 t2 h2 hcompat p

/-- C1 witness: the theorem instantiated at the spec's worked example
`A(id, name)` / `B(id, age)`. -/
theorem union_tables_rows_and_columns_witness :
    ∃ u, union_tables tblA tblB = .ok u ∧
      u.rows.length = tblA.rows.length + tblB.rows.length ∧
      (∀ (i : Nat) (r : Row), tblA.rows[i]? = some r →
        ∃ w, u.rows[i]? = some w ∧ WidenedFrom tblA u r w) ∧
      (∀ (i : Nat) (r : Row), tblB.rows[i]? = some r →
        ∃ w, u.rows[tblA.rows.length + i]? = some w ∧ WidenedFrom tblB u r w) ∧
      (∀ p, p ∈ u.schema ↔ p ∈ tblA.schema ∨ p ∈ tblB.schema) :=
  union_tables_rows_and_columns tblA tblB (by decide) (by decide)
    (by unfold Table.RowsWF; decide) (by unfold Table.RowsWF; decide) (by decide)

/-- C2: for union-compatible tables (with wellformed column names), the
result schema is table1's schema followed by exactly those table2 columns
whose names are not in table1, in table2's order — so table1's schema is a
prefix of the result schema, and the result schema contains every column of
both inputs. -/
theorem union_tables_combined_schema (t1 t2 : Table)
    (h2 : t2.colNames.Nodup)
    (hcompat : ∀ p ∈ t1.schema, ∀ q ∈ t2.schema, p.1 = q.1 → p.2 = q.2) :
    ∃ u, union_tables t1 t2 = .ok u ∧
      u.schema = t1.schema
        ++ t2.schema.filter (fun p => decide (p.1 ∉ t1.schema.map Prod.fst)) ∧
      (∀ p ∈ t1.schema, p ∈ u.schema) ∧
      (∀ p ∈ t2.schema, p ∈ u.schema) := by
  have hf := findConflict_eq_none_of_compat t1 t2 hcompat
  refine ⟨_, union_tables_eq_ok t1 t2 hf, ?_, ?_, ?_⟩
  · show (Table.from_schema (t1.name ++ "_UNION_" ++ t2.name)
        (combineSchemas t1.schema t2.schema)).schema = _
    rw [from_schema_schema, combineSchemas_eq _ _ (by rw [schema_names]; exact h2)]
  · intro p hp
    show p ∈ (Table.from_schema (t1.name ++ "_UNION_" ++ t2.name)
        (combineSchemas t1.schema t2.schema)).schema
    rw [from_schema_schema]
    exact (combined_mem_iff t1 t2 h2 hcompat p).mpr (Or.inl hp)
  · intro p hp
    show p ∈ (Table.from_schema (t1.name ++ "_UNION_" ++ t2.name)
        (combineSchemas t1.schema t2.schema)).schema
    rw [from_schema_schema]
    exact (combined_mem_iff t1 t2 h2 hcompat p).mpr (Or.inr hp)

/-- C2 witness: the theorem instantiated at the sample tables, whose combined
schema is `[id:integer, name:string, age:integer]`. -/
theorem union_tables_combined_schema_witness :
    ∃ u, union_tables tblA tblB = .ok u ∧
      u.schema = tblA.schema
        ++ tblB.schema.filter (fun p => decide (p.1 ∉ tblA.schema.map Prod.fst)) ∧
      (∀ p ∈ tblA.schema, p ∈ u.schema) ∧
      (∀ p ∈ tblB.schema, p ∈ u.schema) :=
  union_tables_combined_schema tblA tblB (by decide) (by decide)

/-- C3: a union fails exactly when some column name carries differing
declared types in the two inputs (a column present in only one input never
causes failure, and compatible tables always yield a result), and every
failure carries the error message naming a conflicting column and its two
types.  In this functional model an error result carries no table, which is
the source's "no result table is constructed on failure". -/
theorem union_tables_fails_iff_conflict (t1 t2 : Table)
    (h1 : t1.colNames.Nodup) (h2 : t2.colNames.Nodup) :
    ((∃ e, union_tables t1 t2 = .error e) ↔
      ∃ n ty1 ty2, (n, ty1) ∈ t1.schema ∧ (n, ty2) ∈ t2.schema ∧ ty1 ≠ ty2) ∧
    (∀ e, union_tables t1 t2 = .error e →
      ∃ n ty1 ty2, (n, ty1) ∈ t1.schema ∧ (n, ty2) ∈ t2.schema ∧ ty1 ≠ ty2 ∧
        e = incompatMsg n ty1 ty2) := by
  cases hfc : findConflict t1.schema t2.schema with
  | some trip =>
    obtain ⟨n, ty1, ty2⟩ := trip
    obtain ⟨hm1, hl2, hne⟩ := findConflict_some hfc
    have herr : union_tables t1 t2 = .error (incompatMsg n ty1 ty2) := by
      simp [union_tables, hfc]
    constructor
    · constructor
      · intro _
        exact ⟨n, ty1, ty2, hm1, lookup_mem hl2, hne⟩
      · intro _
        exact ⟨_, herr⟩
    · intro e he
      rw [herr] at he
      injection he with hee
      exact ⟨n, ty1, ty2, hm1, lookup_mem hl2, hne, hee.symm⟩
  | none =>
    have hok := union_tables_eq_ok t1 t2 hfc
    constructor
    · constructor
      · rintro ⟨e, he⟩
        rw [hok] at he
        cases he
      · rintro ⟨n, ty1, ty2, hm1, hm2, hne⟩
        exfalso
        have hl2 : t2.schema.lookup n = some ty2 :=
          lookup_of_mem_nodup (by rw [schema_names]; exact h2) hm2
        exact hne (findConflict_none_iff t1.schema t2.schema |>.mp hfc (n, ty1) hm1 ty2 hl2)
    · intro e he
      rw [hok] at he
      cases he

/-- C3 witness: the theorem instantiated at two tables sharing the column
`value` with types `string` vs `integer`: the union fails. -/
theorem union_tables_fails_iff_conflict_witness :
    ∃ e, union_tables tblC tblD = .error e :=
  (union_tables_fails_iff_conflict tblC tblD (by decide) (by decide)).1.mpr
    ⟨"value", "string", "integer", by decide, by decide, by decide⟩

/-- Column serialization round-trips. -/
theorem column_round_trip (c : Column) : Column.from_json (Column.to_json c) = c := rfl

/-- Row serialization round-trips. -/
theorem row_round_trip (r : Row) : Row.from_json (Row.to_json r) = r := rfl

/-- Table serialization round-trips: name, column order, row order and
values are all reproduced. -/
theorem table_round_trip (t : Table) : Table.from_json (Table.to_json t) = t := by
  cases t with
  | mk nm cols rows =>
    simp only [Table.to_json, Table.from_json, List.map_map]
    refine congrArg₂ (Table.mk nm) ?_ ?_
    · have h : (Column.from_json ∘ Column.to_json) = id := funext fun c => rfl
      rw [h, List.map_id]
    · have h : (Row.from_json ∘ Row.to_json) = id := funext fun r => rfl
      rw [h, List.map_id]

/-- Dict assignment with a fresh key appends the binding. -/
theorem dictInsert_of_not_mem {m : List (String × Table)} {k : String} {t : Table}
    (h : ∀ p ∈ m, p.1 ≠ k) : dictInsert m k t = m ++ [(k, t)] := by
  unfold dictInsert
  rw [if_neg]
  simp only [List.any_eq_true, decide_eq_true_eq, not_exists]
  push_neg
  exact h

/-- Rebuilding the serialized table list restores the registry, provided the
name invariant holds and keys are duplicate-free. -/
theorem from_json_fold (ts : List (String × Table)) :
    ∀ acc : List (String × Table),
      (∀ p ∈ ts, p.2.name = p.1) →
      ((acc ++ ts).map Prod.fst).Nodup →
      (ts.map (fun p => p.2.to_json)).foldl
        (fun acc tj => dictInsert acc (Table.from_json tj).name (Table.from_json tj)) acc
        = acc ++ ts := by
  induction ts with
  | nil => intro acc _ _; simp
  | cons p rest ih =>
    intro acc hinv hnd
    obtain ⟨k, t⟩ := p
    rw [List.map_cons, List.foldl_cons, table_round_trip t]
    have hname : t.name = k := hinv (k, t) (by simp)
    rw [hname]
    have hnd2 : (acc.map Prod.fst ++ (k :: rest.map Prod.fst)).Nodup := by
      simpa using hnd
    obtain ⟨hnda, hndk, hdisj⟩ := List.nodup_append.mp hnd2
    rw [dictInsert_of_not_mem (fun q hq hqk =>
      hdisj (List.mem_map.mpr ⟨q, hq, hqk⟩) (by simp))]
    have hstep := ih (acc ++ [(k, t)]) (fun q hq => hinv q (by simp [hq])) (by
      have : (acc ++ [(k, t)]) ++ rest = acc ++ ((k, t) :: rest) := by simp
      rw [this]
      simpa using hnd)
    rw [hstep]
    simp

/-- Database serialization round-trips on wellformed databases. -/
theorem database_round_trip (db : Database) (h : db.WF) :
    Database.from_json (Database.to_json db) = db := by
  obtain ⟨nm, ts⟩ := db
  obtain ⟨hnd, hinv⟩ := h
  simp only [Database.to_json, Database.from_json]
  refine congrArg (Database.mk nm) ?_
  have hfold := from_json_fold ts [] hinv (by simpa using hnd)
  simpa using hfold

/-- C5: serializing and re-reading reproduces an identical structure.  For
every table, `from_json (to_json t) = t` — same name, same columns in the
same order, same rows with the same values in the same order; for every
wellformed database (duplicate-free registry keys with matching table names,
which every database built through the core's dict-backed registry
satisfies), `from_json (to_json db) = db`. -/
theorem json_round_trip :
    (∀ t : Table, Table.from_json (Table.to_json t) = t) ∧
    (∀ db : Database, db.WF → Database.from_json (Database.to_json db) = db) :=
  ⟨table_round_trip, database_round_trip⟩

/-- C5 witness: the database round trip at a concrete one-table database. -/
theorem json_round_trip_witness :
    Database.from_json (Database.to_json dbSample) = dbSample :=
  json_round_trip.2 dbSample (by unfold Database.WF Database.NameInv; decide)

/-- A successful `add_row` preserves the table's name. -/
theorem add_row_name {t t2 : Table} {vs : List (String × Value)} {r : Row}
    (h : t.add_row vs = .ok (t2, r)) : t2.name = t.name := by
  simp only [Table.add_row] at h
  split at h
  · cases h
  · injection h with hp
    have := congrArg Prod.fst hp
    simp at this
    rw [← this]

/-- A successful `update_row` preserves the table's name. -/
theorem update_row_name {t t2 : Table} {i : Nat} {vs : List (String × Value)} {r : Row}
    (h : t.update_row i vs = .ok (t2, r)) : t2.name = t.name := by
  simp only [Table.update_row] at h
  split at h
  · cases h
  · split at h
    · cases h
    · injection h with hp
      have := congrArg Prod.fst hp
      simp at this
      rw [← this]

/-- A successful `get_table` returns a registered entry. -/
theorem get_table_mem {db : Database} {nm : String} {t : Table}
    (h : db.get_table nm = .ok t) : (nm, t) ∈ db.tables := by
  simp only [Database.get_table] at h
  cases hl : db.tables.lookup nm with
  | none => simp [hl] at h
  | some t0 =>
    simp only [hl] at h
    injection h with ht
    subst ht
    exact lookup_mem hl

/-- Dict assignment preserves the name invariant when the stored table's name
is its key. -/
theorem dictInsert_nameInv {m : List (String × Table)} {k : String} {t : Table}
    (h : ∀ p ∈ m, p.2.name = p.1) (ht : t.name = k) :
    ∀ p ∈ dictInsert m k t, p.2.name = p.1 := by
  intro p hp
  unfold dictInsert at hp
  split at hp
  · obtain ⟨q, hq, he⟩ := List.mem_map.mp hp
    by_cases hqk : q.1 = k
    · rw [if_pos hqk] at he
      rw [← he]
      exact ht
    · rw [if_neg hqk] at he
      rw [← he]
      exact h q hq
  · rcases List.mem_append.mp hp with hp | hp
    · exact h p hp
    · rw [List.mem_singleton.mp hp]
      exact ht

/-- The `from_json` fold establishes the name invariant from any accumulator
that satisfies it. -/
theorem from_json_fold_inv (tjs : List TableJson) :
    ∀ acc : List (String × Table),
      (∀ p ∈ acc, p.2.name = p.1) →
      ∀ p ∈ tjs.foldl
        (fun acc tj => dictInsert acc (Table.from_json tj).name (Table.from_json tj)) acc,
        p.2.name = p.1 := by
  induction tjs with
  | nil => intro acc h; exact h
  | cons tj rest ih =>
    intro acc h
    rw [List.foldl_cons]
    exact ih _ (dictInsert_nameInv h rfl)

/-- C9: the registry invariant `tables[name].name = name` holds for the empty
database and is preserved by `create_table`, `drop_table`, `insert_row` and
`edit_row`, and holds unconditionally for any database reconstructed by
`from_json` (and hence by `load`, which delegates to `from_json` after the
file read). -/
theorem database_name_invariant :
    (∀ nm : String, (Database.mk nm []).NameInv) ∧
    (∀ (db : Database) (nm : String) (s : List SchemaItem) (db2 : Database) (t : Table),
       db.NameInv → db.create_table nm s = .ok (db2, t) → db2.NameInv) ∧
    (∀ (db : Database) (nm : String) (db2 : Database),
       db.NameInv → db.drop_table nm = .ok db2 → db2.NameInv) ∧
    (∀ (db : Database) (nm : String) (vs : List (String × Value)) (db2 : Database),
       db.NameInv → db.insert_row nm vs = .ok db2 → db2.NameInv) ∧
    (∀ (db : Database) (nm : String) (i : Nat) (vs : List (String × Value)) (db2 : Database),
       db.NameInv → db.edit_row nm i vs = .ok db2 → db2.NameInv) ∧
    (∀ data : DatabaseJson, (Database.from_json data).NameInv) := by
  refine ⟨?_, ?_, ?_, ?_, ?_, ?_⟩
  · intro nm p hp
    cases hp
  · intro db nm s db2 t hinv heq
    simp only [Database.create_table] at heq
    split at heq
    · cases heq
    · split at heq
      · cases heq
      · injection heq with hp
        have hdb := congrArg Prod.fst hp
        simp only at hdb
        subst hdb
        intro p hp2
        rcases List.mem_append.mp hp2 with hp2 | hp2
        · exact hinv p hp2
        · rw [List.mem_singleton.mp hp2]
          rfl
  · intro db nm db2 hinv heq
    simp only [Database.drop_table] at heq
    split at heq
    · injection heq with hdb
      subst hdb
      intro p hp
      exact hinv p ((List.eraseP_sublist _).subset hp)
    · cases heq
  · intro db nm vs db2 hinv heq
    simp only [Database.insert_row] at heq
    cases hget : db.get_table nm with
    | error e =>
      simp only [hget] at heq
      cases heq
    | ok t =>
      simp only [hget] at heq
      cases hadd : t.add_row vs with
      | error e =>
        simp only [hadd] at heq
        cases heq
      | ok pr =>
        obtain ⟨t2, r⟩ := pr
        simp only [hadd] at heq
        injection heq with hdb
        subst hdb
        have hkey : t2.name = nm := by
          rw [add_row_name hadd]
          exact hinv (nm, t) (get_table_mem hget)
        exact dictInsert_nameInv hinv hkey
  · intro db nm i vs db2 hinv heq
    simp only [Database.edit_row] at heq
    cases hget : db.get_table nm with
    | error e =>
      simp only [hget] at heq
      cases heq
    | ok t =>
      simp only [hget] at heq
      cases hupd : t.update_row i vs with
      | error e =>
        simp only [hupd] at heq
        cases heq
      | ok pr =>
        obtain ⟨t2, r⟩ := pr
        simp only [hupd] at heq
        injection heq with hdb
        subst hdb
        have hkey : t2.name = nm := by
          rw [update_row_name hupd]
          exact hinv (nm, t) (get_table_mem hget)
        exact dictInsert_nameInv hinv hkey
  · intro data
    exact from_json_fold_inv data.tables [] (fun p hp => by cases hp)

/-- C9 witness: the invariant after creating a table in an empty database. -/
theorem database_name_invariant_witness :
    Database.NameInv ⟨"d", [("users", ⟨"users", [⟨"id", "integer"⟩], []⟩)]⟩ :=
  database_name_invariant.2.1 ⟨"d", []⟩ "users" [SchemaItem.pair "id" "integer"] _ _
    (by unfold Database.NameInv; decide) rfl

end TDMS

section Scratch
open TDMS TDMS.TypeValidator
example : normalize (.int 5) "integer" = .ok (.int 5) := rfl
example : normalize (.str "123") "integer" = .ok (.int 123) := rfl
example : normalize (.str "12x") "integer" = .error "Invalid integer" := rfl
example : normalize (.bool true) "integer" = .error "Boolean is not accepted as integer" := rfl
example : normalize (.float ⟨39, 10, by decide, by decide⟩) "integer" = .ok (.int 3) := rfl
example : normalize (.float ⟨-39, 10, by decide, by decide⟩) "integer" = .ok (.int (-3)) := rfl
example : normalize (.str "ab") "char" = .error "Char must be exactly one character" := rfl
example : normalize (.str "2023-12-25") "date" = .ok (.str "2023-12-25") := rfl
example : normalize (.str "2023-13-25") "date" = .error "Invalid date format, expected YYYY-MM-DD" := rfl
example : normalize (.str "2023-02-29") "date" = .error "Invalid date format, expected YYYY-MM-DD" := rfl
example : normalize (.str "2024-02-29") "date" = .ok (.str "2024-02-29") := rfl
example : normalize (.dict [("start", .str "2023-01-01"), ("end", .str "2023-12-31")]) "dateInvl"
    = .ok (.dict [("start", .str "2023-01-01"), ("end", .str "2023-12-31")]) := rfl
example : normalize (.str "2023-01-02..2023-01-01") "dateInvl"
    = .error "dateInvl start must be <= end" := rfl
example : normalize (.int 7) "string" = .ok (.str "7") := rfl
example : normalize (.int 1) "dateInterval" = .error "Unsupported type: dateInterval" := rfl
example : validate_row [("id", "integer")] [("id", .int 1), ("extra", .str "x")]
    = .error "Unexpected columns: ['extra']" := rfl
example : validate_row [("id", "integer"), ("name", "string")] [("id", .int 1)]
    = .error ("Missing value for column " ++ sq ++ "name" ++ sq) := rfl
end Scratch
